import Mathlib

/-!
Verification of `privacy-on-beam/pbeam/aggregations.go` (shallow embedding).

Modelling conventions:
* Go `int64` values are modelled as `Int` (no arithmetic overflow occurs in the
  modelled code paths: the file only copies, compares and selects values).
* Go `float64` privacy parameters (`epsilon`, `delta`) and `float64` metric
  values are modelled as `ℚ`: the only operations the modelled code performs on
  them are halving, the constant `0`, comparison with `0` and pass-through, all
  of which are exact in binary floating point (no rounding is involved).
* Nil-able Go pointers (`*int64`, `*float64`) are modelled as `Option`;
  `nil` is `none`.
* `log.Exitf` (process abort during pipeline construction) is modelled by
  `Except String`.
* The external `dpagg` sub-mechanisms (`BoundedSumInt64`, `BoundedSumFloat64`,
  `PreAggSelectPartition`) are out of scope of this file (they live in a
  different library); their states are type parameters and their operations
  (`Merge`, `Result`) are function parameters, exactly as the combiner code
  drives them through the fixed interface contract.
* A Beam `ParDo` body with an `emit` callback is modelled as a function
  returning the list of emitted elements; the `ParDo` itself is `List.flatMap`
  of that function over the input collection.
* Go `[]byte` (encoded keys) is modelled as `String` (Go itself converts the
  bytes to `string` before comparing, via `string(pair.K)`).
-/

namespace Pbeam

/-- Go `noise.Kind` enumeration from the external `noise` package: the two
recognized noise families plus the `Unrecognised` value. -/
inductive NoiseKind where
  | GaussianNoise
  | LaplaceNoise
  | Unrecognised
  deriving DecidableEq, Repr

/-- Accumulator `boundedSumAccumInt64` of the int64 combiner.  `σBS` is the
state of the external `dpagg.BoundedSumInt64`, `σSP` the state of the external
`dpagg.PreAggSelectPartition`. -/
structure boundedSumAccumInt64 (σBS σSP : Type) where
  BS : σBS
  SP : σSP
  PartitionsSpecified : Bool
  deriving DecidableEq, Repr

/-- Accumulator `boundedSumAccumFloat64` of the float64 combiner. -/
structure boundedSumAccumFloat64 (σBS σSP : Type) where
  BS : σBS
  SP : σSP
  PartitionsSpecified : Bool
  deriving DecidableEq, Repr

/-- Parameters `boundedSumInt64Fn` of the int64 combiner, set by
`newBoundedSumInt64Fn` (the `noise` field is set later during `Setup` and
plays no role in the modelled claims). -/
structure boundedSumInt64Fn where
  EpsilonNoise : ℚ
  EpsilonPartitionSelection : ℚ
  DeltaNoise : ℚ
  DeltaPartitionSelection : ℚ
  MaxPartitionsContributed : Int
  Lower : Int
  Upper : Int
  NoiseKind : NoiseKind
  PartitionsSpecified : Bool
  deriving DecidableEq, Repr

/-- Parameters `boundedSumFloat64Fn` of the float64 combiner. -/
structure boundedSumFloat64Fn where
  EpsilonNoise : ℚ
  EpsilonPartitionSelection : ℚ
  DeltaNoise : ℚ
  DeltaPartitionSelection : ℚ
  MaxPartitionsContributed : Int
  Lower : ℚ
  Upper : ℚ
  NoiseKind : NoiseKind
  PartitionsSpecified : Bool
  deriving DecidableEq, Repr

/-- Constructor `newBoundedSumInt64Fn(epsilon, delta, maxPartitionsContributed, lower,
upper, noiseKind, partitionsSpecified)`: splits the budget and builds the
combiner; `log.Exitf` on an unknown `noise.Kind` is modelled as `Except.error`. -/
def newBoundedSumInt64Fn (epsilon delta : ℚ) (maxPartitionsContributed lower upper : Int)
    (noiseKind : NoiseKind) (partitionsSpecified : Bool) :
    Except String boundedSumInt64Fn :=
  match noiseKind with
  | NoiseKind.GaussianNoise =>
      Except.ok
        { EpsilonNoise := epsilon / 2
          EpsilonPartitionSelection := epsilon / 2
          DeltaNoise := delta / 2
          DeltaPartitionSelection := delta / 2
          MaxPartitionsContributed := maxPartitionsContributed
          Lower := lower
          Upper := upper
          NoiseKind := noiseKind
          PartitionsSpecified := partitionsSpecified }
  | NoiseKind.LaplaceNoise =>
      Except.ok
        { EpsilonNoise := epsilon / 2
          EpsilonPartitionSelection := epsilon / 2
          DeltaNoise := 0
          DeltaPartitionSelection := delta
          MaxPartitionsContributed := maxPartitionsContributed
          Lower := lower
          Upper := upper
          NoiseKind := noiseKind
          PartitionsSpecified := partitionsSpecified }
  | NoiseKind.Unrecognised =>
      Except.error "newBoundedSumInt64Fn: unknown noise.Kind is specified. Please specify a valid noise."

/-- Constructor `newBoundedSumFloat64Fn`, the float64 version. -/
def newBoundedSumFloat64Fn (epsilon delta : ℚ) (maxPartitionsContributed : Int)
    (lower upper : ℚ) (noiseKind : NoiseKind) (partitionsSpecified : Bool) :
    Except String boundedSumFloat64Fn :=
  match noiseKind with
  | NoiseKind.GaussianNoise =>
      Except.ok
        { EpsilonNoise := epsilon / 2
          EpsilonPartitionSelection := epsilon / 2
          DeltaNoise := delta / 2
          DeltaPartitionSelection := delta / 2
          MaxPartitionsContributed := maxPartitionsContributed
          Lower := lower
          Upper := upper
          NoiseKind := noiseKind
          PartitionsSpecified := partitionsSpecified }
  | NoiseKind.LaplaceNoise =>
      Except.ok
        { EpsilonNoise := epsilon / 2
          EpsilonPartitionSelection := epsilon / 2
          DeltaNoise := 0
          DeltaPartitionSelection := delta
          MaxPartitionsContributed := maxPartitionsContributed
          Lower := lower
          Upper := upper
          NoiseKind := noiseKind
          PartitionsSpecified := partitionsSpecified }
  | NoiseKind.Unrecognised =>
      Except.error "newBoundedSumFloat64Fn: unknown noise.Kind is specified. Please specify a valid noise."

/-- Method `boundedSumInt64Fn.MergeAccumulators(a, b)`: merges the two sub-states
through the external `Merge` operations (`bsMerge`, `spMerge` model the state
transition of `a.BS.Merge(b.BS)` and `a.SP.Merge(b.SP)`) and returns `a`,
whose `PartitionsSpecified` flag is therefore kept unchanged. -/
def MergeAccumulatorsInt64 {σBS σSP : Type} (bsMerge : σBS → σBS → σBS)
    (spMerge : σSP → σSP → σSP) (a b : boundedSumAccumInt64 σBS σSP) :
    boundedSumAccumInt64 σBS σSP :=
  { BS := bsMerge a.BS b.BS
    SP := spMerge a.SP b.SP
    PartitionsSpecified := a.PartitionsSpecified }

/-- Method `boundedSumFloat64Fn.MergeAccumulators(a, b)`, the float64 version. -/
def MergeAccumulatorsFloat64 {σBS σSP : Type} (bsMerge : σBS → σBS → σBS)
    (spMerge : σSP → σSP → σSP) (a b : boundedSumAccumFloat64 σBS σSP) :
    boundedSumAccumFloat64 σBS σSP :=
  { BS := bsMerge a.BS b.BS
    SP := spMerge a.SP b.SP
    PartitionsSpecified := a.PartitionsSpecified }

/-- Method `boundedSumInt64Fn.ExtractOutput(a)`: computes `a.BS.Result()` (modelled by
the external result function `bsResult`) and returns a pointer to it when
`a.PartitionsSpecified || a.SP.Result()`, `nil` otherwise. -/
def ExtractOutputInt64 {σBS σSP : Type} (bsResult : σBS → Int)
    (spResult : σSP → Bool) (a : boundedSumAccumInt64 σBS σSP) : Option Int :=
  let result := bsResult a.BS
  if a.PartitionsSpecified || spResult a.SP then
    some result
  else
    none

/-- Method `boundedSumFloat64Fn.ExtractOutput(a)`, the float64 version. -/
def ExtractOutputFloat64 {σBS σSP : Type} (bsResult : σBS → ℚ)
    (spResult : σSP → Bool) (a : boundedSumAccumFloat64 σBS σSP) : Option ℚ :=
  let result := bsResult a.BS
  if a.PartitionsSpecified || spResult a.SP then
    some result
  else
    none

/-- Function `randBool(_, _ beam.V) bool`: returns `rand.Uint32()%2 == 0`.
The draw from the global PRNG is made explicit: `u` is the value returned by
`rand.Uint32()`.  Both data arguments are ignored, exactly as in the source
(`_, _ beam.V`). -/
def randBool {α : Type} (u : Nat) (_x _y : α) : Bool :=
  u % 2 == 0

/-- Values associated with grouping key `k` in a keyed collection
(`PCollection<K,V>` is modelled as `List (κ × ν)`); used to express the
per-key grouping the engine performs. -/
def valuesForKey {κ ν : Type} [DecidableEq κ] (col : List (κ × ν)) (k : κ) :
    List ν :=
  (col.filter (fun r => decide (r.1 = k))).map (fun r => r.2)

/-- External `top.LargestPerKey` selection on one key group: keeps the `n`
records that are largest according to the comparison function `less` (here:
sort descending by `less`, keep the first `n`).  With `less = randBool` this
is the "mostly random" selection of `boundContributions`. -/
def largest {ν : Type} (less : ν → ν → Bool) (n : Nat) (xs : List ν) :
    List ν :=
  (List.insertionSort (fun a b => less b a = true) xs).take n

/-- External `top.LargestPerKey(s, kvCol, n, less)`: transforms
`PCollection<K,V>` into `PCollection<K,[]V>` with at most `n` elements per
slice, the "largest" per `less`. -/
def largestPerKey {κ ν : Type} [DecidableEq κ] (less : ν → ν → Bool) (n : Nat)
    (col : List (κ × ν)) : List (κ × List ν) :=
  ((col.map (fun r => r.1)).dedup).map
    (fun k => (k, largest less n (valuesForKey col k)))

/-- Function `flattenValuesFn(key, values, emit)`: given `PCollection<K,[]V>`,
flattens the second argument to return a `PCollection<K,V>`. -/
def flattenValuesFn {κ ν : Type} (key : κ) (values : List ν) : List (κ × ν) :=
  values.map (fun v => (key, v))

/-- Function `boundContributions(s, kvCol, contributionLimit)`: for each key,
selects at most `contributionLimit` records via `top.LargestPerKey` with the
random comparison, then flattens with `flattenValuesFn`.  The comparison
function is a parameter (`less`) so that the result covers the random
comparator. -/
def boundContributions {κ ν : Type} [DecidableEq κ] (less : ν → ν → Bool)
    (contributionLimit : Nat) (kvCol : List (κ × ν)) : List (κ × ν) :=
  (largestPerKey less contributionLimit kvCol).flatMap
    (fun p => flattenValuesFn p.1 p.2)

/-- Function `CorrectToInt64(key, v *int64)`: the Go body is
`return key, *v` — an unconditional pointer dereference with no nil check.
The dereference of `nil` (a runtime panic) is modelled by `none`; a
successful dereference by `some`. -/
def CorrectToInt64 {α : Type} (key : α) (v : Option Int) : Option (α × Int) :=
  match v with
  | some x => some (key, x)
  | none => none

/-- Function `CorrectToFloat64(key, v *float64)`, the float64 version. -/
def CorrectToFloat64 {α : Type} (key : α) (v : Option ℚ) : Option (α × ℚ) :=
  match v with
  | some x => some (key, x)
  | none => none

/-- Function `dropThresholdedPartitionsInt64Fn(v, r *int64, emit)`: emits
`(v, *r)` only when `r != nil`. -/
def dropThresholdedPartitionsInt64Fn {α : Type} (v : α) (r : Option Int) :
    List (α × Int) :=
  match r with
  | some x => [(v, x)]
  | none => []

/-- Function `dropThresholdedPartitionsFloat64Fn(v, r *float64, emit)`, the
float64 version. -/
def dropThresholdedPartitionsFloat64Fn {α : Type} (v : α) (r : Option ℚ) :
    List (α × ℚ) :=
  match r with
  | some x => [(v, x)]
  | none => []

/-- Function `clampNegativePartitionsInt64Fn(v, r int64)`: clamps negative
partitions to zero, e.g. as a post-aggregation step for Count. -/
def clampNegativePartitionsInt64Fn {α : Type} (v : α) (r : Int) : α × Int :=
  if r < 0 then
    (v, 0)
  else
    (v, r)

/-- Function `clampNegativePartitionsFloat64Fn(v, r float64)`, the float64
version. -/
def clampNegativePartitionsFloat64Fn {α : Type} (v : α) (r : ℚ) : α × ℚ :=
  if r < 0 then
    (v, 0)
  else
    (v, r)

/-- Type `Partition` wraps the encoded (byte-string) form of a partition key. -/
structure Partition where
  PartitionKey : String
  deriving DecidableEq, Repr

/-- Type `kv.Pair` from the external `kv` package: an encoded key and an
encoded value. -/
structure Pair where
  K : String
  V : String
  deriving DecidableEq, Repr

/-- Lookup in the Go `map[Partition]bool` built by the hash-map combiners;
a missing key reads as `false` (the map only ever stores `true`). -/
def mapLookup (m : List Partition) (p : Partition) : Bool :=
  decide (p ∈ m)

/-- Method `partitionsHashMapFn.AddInput(m, partitionKey)`: encodes the key
via the codec (`enc`) and stores `Partition{string(bytes)} -> true`. -/
def mapAccumAddInput {κ : Type} (enc : κ → String) (m : List Partition)
    (partitionKey : κ) : List Partition :=
  Partition.mk (enc partitionKey) :: m

/-- Build phase of the partition-spec filter: `beam.Combine` of the hash-map
combiner over the partitions collection (fold of `AddInput` from the empty
accumulator). -/
def buildPartitionsMap {κ : Type} (enc : κ → String) (partitionsCol : List κ) :
    List Partition :=
  partitionsCol.foldl (mapAccumAddInput enc) []

/-- Function `prunePartitionsFn(id, pair, partitionsIter, emit)`: emits
`(id, pair)` only when `Partition{string(pair.K)}` is in the broadcast map.
Used for sum and mean. -/
def prunePartitionsFn {α : Type} (partitionsMap : List Partition) (id : α)
    (pair : Pair) : List (α × Pair) :=
  if mapLookup partitionsMap (Partition.mk pair.K) then
    [(id, pair)]
  else
    []

/-- Method `prunePartitionsFnForCount.ProcessElement(id, partitionKey,
partitionsIter, emit)`: encodes the partition key via the codec (`enc`) and
emits `(id, partitionKey)` only when the encoded form is in the broadcast
map.  Used for count and distinct_id. -/
def prunePartitionsFnForCount {α κ : Type} (enc : κ → String)
    (partitionsMap : List Partition) (id : α) (partitionKey : κ) :
    List (α × κ) :=
  if mapLookup partitionsMap (Partition.mk (enc partitionKey)) then
    [(id, partitionKey)]
  else
    []

/-- Function `dropUnspecifiedPartitions(s, partitions, pcol, partitionT)`
for sum and mean: when exactly one partitions collection is supplied, builds
the broadcast map and prunes `pcol.col` with `prunePartitionsFn`; otherwise
returns `pcol.col` unchanged. -/
def dropUnspecifiedPartitions {α κ : Type} (enc : κ → String)
    (partitions : List (List κ)) (col : List (α × Pair)) : List (α × Pair) :=
  match partitions with
  | [partitionsCol] =>
      let partitionsMap := buildPartitionsMap enc partitionsCol
      col.flatMap (fun r => prunePartitionsFn partitionsMap r.1 r.2)
  | _ => col

/-- Function `dropUnspecifiedPartitionsForCount(s, partitions, pcol,
partitionT)` for count and distinct_id: same shape, pruning with
`prunePartitionsFnForCount`. -/
def dropUnspecifiedPartitionsForCount {α κ : Type} (enc : κ → String)
    (partitions : List (List κ)) (col : List (α × κ)) : List (α × κ) :=
  match partitions with
  | [partitionsCol] =>
      let partitionsMap := buildPartitionsMap enc partitionsCol
      col.flatMap (fun r => prunePartitionsFnForCount enc partitionsMap r.1 r.2)
  | _ => col

/-! Helper lemmas. -/

lemma valuesForKey_append {κ ν : Type} [DecidableEq κ] (l₁ l₂ : List (κ × ν))
    (k : κ) :
    valuesForKey (l₁ ++ l₂) k = valuesForKey l₁ k ++ valuesForKey l₂ k := by
  simp [valuesForKey, List.filter_append]

lemma valuesForKey_flattenValuesFn {κ ν : Type} [DecidableEq κ] (j : κ)
    (vs : List ν) (k : κ) :
    valuesForKey (flattenValuesFn j vs) k = if j = k then vs else [] := by
  by_cases h : j = k <;>
    simp [valuesForKey, flattenValuesFn, List.filter_map, Function.comp, h]

lemma valuesForKey_flatMap_keys {κ ν : Type} [DecidableEq κ] (g : κ → List ν)
    (k : κ) :
    ∀ ks : List κ, ks.Nodup →
      valuesForKey (ks.flatMap (fun j => flattenValuesFn j (g j))) k
        = if k ∈ ks then g k else [] := by
  intro ks
  induction ks with
  | nil => intro _; simp [valuesForKey]
  | cons j ks ih =>
      intro hnd
      rcases List.nodup_cons.mp hnd with ⟨hj, hnd'⟩
      rw [List.flatMap_cons, valuesForKey_append, valuesForKey_flattenValuesFn,
        ih hnd']
      by_cases h : j = k
      · subst h
        simp [hj, List.mem_cons]
      · simp [h, List.mem_cons, Ne.symm h]

lemma valuesForKey_eq_nil_of_not_mem {κ ν : Type} [DecidableEq κ]
    (col : List (κ × ν)) (k : κ) (h : k ∉ col.map (fun r => r.1)) :
    valuesForKey col k = [] := by
  induction col with
  | nil => rfl
  | cons r col ih =>
      simp only [List.map_cons, List.mem_cons] at h
      push_neg at h
      have hr : ¬(r.1 = k) := fun hrk => h.1 hrk.symm
      have htail := ih h.2
      simp only [valuesForKey] at htail ⊢
      rw [List.filter_cons]
      simp [hr, htail]

lemma largest_nil {ν : Type} (less : ν → ν → Bool) (n : Nat) :
    largest less n [] = [] := by
  simp [largest, List.take_nil]

lemma largest_length {ν : Type} (less : ν → ν → Bool) (n : Nat)
    (xs : List ν) : (largest less n xs).length = min n xs.length := by
  simp [largest, List.length_take,
    (List.perm_insertionSort (fun a b => less b a = true) xs).length_eq]

lemma largest_subperm {ν : Type} (less : ν → ν → Bool) (n : Nat)
    (xs : List ν) : (largest less n xs).Subperm xs :=
  ((List.take_sublist n _).subperm).trans
    (List.perm_insertionSort (fun a b => less b a = true) xs).subperm

lemma largest_perm_of_le {ν : Type} (less : ν → ν → Bool) {n : Nat}
    {xs : List ν} (h : xs.length ≤ n) : (largest less n xs).Perm xs := by
  have hlen : (List.insertionSort (fun a b => less b a = true) xs).length ≤ n := by
    rw [(List.perm_insertionSort (fun a b => less b a = true) xs).length_eq]
    exact h
  rw [largest, List.take_of_length_le hlen]
  exact List.perm_insertionSort _ xs

lemma valuesForKey_boundContributions {κ ν : Type} [DecidableEq κ]
    (less : ν → ν → Bool) (n : Nat) (col : List (κ × ν)) (k : κ) :
    valuesForKey (boundContributions less n col) k
      = largest less n (valuesForKey col k) := by
  unfold boundContributions largestPerKey
  rw [List.flatMap_map]
  rw [valuesForKey_flatMap_keys (fun j => largest less n (valuesForKey col j))
    k _ (List.nodup_dedup _)]
  by_cases h : k ∈ (col.map (fun r => r.1)).dedup
  · simp [h]
  · have h' : k ∉ col.map (fun r => r.1) := fun hm => h (List.mem_dedup.mpr hm)
    rw [if_neg h, valuesForKey_eq_nil_of_not_mem col k h', largest_nil]

lemma mem_dropThresholdedInt64 {α : Type} (q : α × Option Int) (p : α × Int) :
    p ∈ dropThresholdedPartitionsInt64Fn q.1 q.2 ↔ q = (p.1, some p.2) := by
  rcases q with ⟨v, r⟩
  rcases p with ⟨w, x⟩
  cases r with
  | none => simp [dropThresholdedPartitionsInt64Fn]
  | some x' =>
      simp only [dropThresholdedPartitionsInt64Fn, List.mem_singleton,
        Prod.mk.injEq]
      aesop

/-! Claim theorems. -/

/-- C1: for every accumulator (both the int64 and the float64 combiner),
`ExtractOutput` returns the noised sum (a present optional value) if the
accumulator's `partitionsSpecified` flag is true OR the partition-selection
sub-state's `Result()` is true, and returns the absent sentinel (`nil`/`none`)
otherwise. -/
theorem extractOutput_present_iff_specified_or_selected
    {σBS σSP τBS τSP : Type}
    (bsR : σBS → Int) (spR : σSP → Bool) (a : boundedSumAccumInt64 σBS σSP)
    (bsRf : τBS → ℚ) (spRf : τSP → Bool)
    (af : boundedSumAccumFloat64 τBS τSP) :
    ((a.PartitionsSpecified = true ∨ spR a.SP = true) →
      ExtractOutputInt64 bsR spR a = some (bsR a.BS)) ∧
    ((a.PartitionsSpecified = false ∧ spR a.SP = false) →
      ExtractOutputInt64 bsR spR a = none) ∧
    ((af.PartitionsSpecified = true ∨ spRf af.SP = true) →
      ExtractOutputFloat64 bsRf spRf af = some (bsRf af.BS)) ∧
    ((af.PartitionsSpecified = false ∧ spRf af.SP = false) →
      ExtractOutputFloat64 bsRf spRf af = none) := by
  refine ⟨?_, ?_, ?_, ?_⟩
  · rintro (h | h) <;> simp [ExtractOutputInt64, h]
  · rintro ⟨h1, h2⟩
    simp [ExtractOutputInt64, h1, h2]
  · rintro (h | h) <;> simp [ExtractOutputFloat64, h]
  · rintro ⟨h1, h2⟩
    simp [ExtractOutputFloat64, h1, h2]

/-- C1 witness: concrete instances of both combiners, one surviving (flag
set), one suppressed (flag unset and selection false). -/
theorem extractOutput_present_iff_specified_or_selected_witness :
    ExtractOutputInt64 (fun n : Nat => (n : Int)) (fun _ : Nat => false)
      (boundedSumAccumInt64.mk 7 0 true) = some 7 ∧
    ExtractOutputInt64 (fun n : Nat => (n : Int)) (fun _ : Nat => false)
      (boundedSumAccumInt64.mk 7 0 false) = none ∧
    ExtractOutputFloat64 (fun n : Nat => (n : ℚ)) (fun _ : Nat => true)
      (boundedSumAccumFloat64.mk 5 0 false) = some 5 ∧
    ExtractOutputFloat64 (fun n : Nat => (n : ℚ)) (fun _ : Nat => false)
      (boundedSumAccumFloat64.mk 5 0 false) = none :=
  ⟨(extractOutput_present_iff_specified_or_selected (fun n : Nat => (n : Int))
      (fun _ : Nat => false) (boundedSumAccumInt64.mk 7 0 true)
      (fun n : Nat => (n : ℚ)) (fun _ : Nat => true)
      (boundedSumAccumFloat64.mk 5 0 false)).1 (Or.inl rfl),
   (extractOutput_present_iff_specified_or_selected (fun n : Nat => (n : Int))
      (fun _ : Nat => false) (boundedSumAccumInt64.mk 7 0 false)
      (fun n : Nat => (n : ℚ)) (fun _ : Nat => true)
      (boundedSumAccumFloat64.mk 5 0 false)).2.1 ⟨rfl, rfl⟩,
   (extractOutput_present_iff_specified_or_selected (fun n : Nat => (n : Int))
      (fun _ : Nat => false) (boundedSumAccumInt64.mk 7 0 true)
      (fun n : Nat => (n : ℚ)) (fun _ : Nat => true)
      (boundedSumAccumFloat64.mk 5 0 false)).2.2.1 (Or.inr rfl),
   (extractOutput_present_iff_specified_or_selected (fun n : Nat => (n : Int))
      (fun _ : Nat => false) (boundedSumAccumInt64.mk 7 0 true)
      (fun n : Nat => (n : ℚ)) (fun _ : Nat => false)
      (boundedSumAccumFloat64.mk 5 0 false)).2.2.2 ⟨rfl, rfl⟩⟩

/-- C2: both combiner constructors split epsilon evenly between noise and
selection; for Gaussian noise delta is split evenly; for Laplace noise
`deltaNoise = 0` and `deltaSelection = delta`; construction fails fast
(`Except.error`, modelling `log.Exitf`) for an unrecognized noise family. -/
theorem newBoundedSum_budget_split (epsilon delta : ℚ)
    (mpc lower upper : Int) (lf uf : ℚ) (ps : Bool) :
    (∃ fn, newBoundedSumInt64Fn epsilon delta mpc lower upper
        NoiseKind.GaussianNoise ps = Except.ok fn ∧
      fn.EpsilonNoise = epsilon / 2 ∧
      fn.EpsilonPartitionSelection = epsilon / 2 ∧
      fn.DeltaNoise = delta / 2 ∧
      fn.DeltaPartitionSelection = delta / 2) ∧
    (∃ fn, newBoundedSumInt64Fn epsilon delta mpc lower upper
        NoiseKind.LaplaceNoise ps = Except.ok fn ∧
      fn.EpsilonNoise = epsilon / 2 ∧
      fn.EpsilonPartitionSelection = epsilon / 2 ∧
      fn.DeltaNoise = 0 ∧
      fn.DeltaPartitionSelection = delta) ∧
    (∃ e, newBoundedSumInt64Fn epsilon delta mpc lower upper
        NoiseKind.Unrecognised ps = Except.error e) ∧
    (∃ fn, newBoundedSumFloat64Fn epsilon delta mpc lf uf
        NoiseKind.GaussianNoise ps = Except.ok fn ∧
      fn.EpsilonNoise = epsilon / 2 ∧
      fn.EpsilonPartitionSelection = epsilon / 2 ∧
      fn.DeltaNoise = delta / 2 ∧
      fn.DeltaPartitionSelection = delta / 2) ∧
    (∃ fn, newBoundedSumFloat64Fn epsilon delta mpc lf uf
        NoiseKind.LaplaceNoise ps = Except.ok fn ∧
      fn.EpsilonNoise = epsilon / 2 ∧
      fn.EpsilonPartitionSelection = epsilon / 2 ∧
      fn.DeltaNoise = 0 ∧
      fn.DeltaPartitionSelection = delta) ∧
    (∃ e, newBoundedSumFloat64Fn epsilon delta mpc lf uf
        NoiseKind.Unrecognised ps = Except.error e) :=
  ⟨⟨_, rfl, rfl, rfl, rfl, rfl⟩, ⟨_, rfl, rfl, rfl, rfl, rfl⟩, ⟨_, rfl⟩,
   ⟨_, rfl, rfl, rfl, rfl, rfl⟩, ⟨_, rfl, rfl, rfl, rfl, rfl⟩, ⟨_, rfl⟩⟩

/-- C3 counterexample: merging two int64 accumulators whose
`partitionsSpecified` flags disagree does NOT surface an error — the merge
simply proceeds (its result type has no error case) and keeps the left
accumulator's flag, refuting the claim at this concrete input. -/
theorem mergeAccumulators_mismatch_counterexample :
    MergeAccumulatorsInt64 (fun x y : Nat => x + y) (fun x y : Nat => x + y)
      (boundedSumAccumInt64.mk 1 2 true) (boundedSumAccumInt64.mk 3 4 false)
      = boundedSumAccumInt64.mk 4 6 true :=
  rfl

/-- C3 (amended): `MergeAccumulators` (both combiners) performs no check on
the `partitionsSpecified` flags: it merges the two sub-states and always
keeps the first accumulator's flag, even when the flags disagree; no error
is surfaced. -/
theorem mergeAccumulators_keeps_left_flag {σBS σSP τBS τSP : Type}
    (bsM : σBS → σBS → σBS) (spM : σSP → σSP → σSP)
    (a b : boundedSumAccumInt64 σBS σSP)
    (bsMf : τBS → τBS → τBS) (spMf : τSP → τSP → τSP)
    (af bf : boundedSumAccumFloat64 τBS τSP) :
    MergeAccumulatorsInt64 bsM spM a b
      = boundedSumAccumInt64.mk (bsM a.BS b.BS) (spM a.SP b.SP)
          a.PartitionsSpecified ∧
    MergeAccumulatorsFloat64 bsMf spMf af bf
      = boundedSumAccumFloat64.mk (bsMf af.BS bf.BS) (spMf af.SP bf.SP)
          af.PartitionsSpecified :=
  ⟨rfl, rfl⟩

/-- C6: the post-noise clamping step returns `(key, 0)` when the result is
negative and `(key, r)` otherwise, so its output is never negative, for both
the int64 and the float64 flavor. -/
theorem clampNegativePartitions_nonneg {α β : Type} (v : α) (r : Int)
    (vf : β) (rf : ℚ) :
    (r < 0 → clampNegativePartitionsInt64Fn v r = (v, 0)) ∧
    (0 ≤ r → clampNegativePartitionsInt64Fn v r = (v, r)) ∧
    0 ≤ (clampNegativePartitionsInt64Fn v r).2 ∧
    (rf < 0 → clampNegativePartitionsFloat64Fn vf rf = (vf, 0)) ∧
    (0 ≤ rf → clampNegativePartitionsFloat64Fn vf rf = (vf, rf)) ∧
    0 ≤ (clampNegativePartitionsFloat64Fn vf rf).2 := by
  refine ⟨?_, ?_, ?_, ?_, ?_, ?_⟩
  · intro h
    simp [clampNegativePartitionsInt64Fn, h]
  · intro h
    simp [clampNegativePartitionsInt64Fn, not_lt.mpr h]
  · unfold clampNegativePartitionsInt64Fn
    split <;> simp_all
  · intro h
    simp [clampNegativePartitionsFloat64Fn, h]
  · intro h
    simp [clampNegativePartitionsFloat64Fn, not_lt.mpr h]
  · unfold clampNegativePartitionsFloat64Fn
    split <;> simp_all

/-- C6 witness: the clamp at the concrete inputs `-5` (clamped to `0`) and
`3` (passed through). -/
theorem clampNegativePartitions_nonneg_witness :
    clampNegativePartitionsInt64Fn "k" (-5) = ("k", 0) ∧
    clampNegativePartitionsInt64Fn "k" 3 = ("k", 3) ∧
    clampNegativePartitionsFloat64Fn "k" (-5) = ("k", 0) ∧
    clampNegativePartitionsFloat64Fn "k" 3 = ("k", 3) :=
  ⟨(clampNegativePartitions_nonneg "k" (-5) "k" (-5 : ℚ)).1 (by decide),
   (clampNegativePartitions_nonneg "k" 3 "k" (3 : ℚ)).2.1 (by decide),
   (clampNegativePartitions_nonneg "k" (-5) "k" (-5 : ℚ)).2.2.2.1 (by norm_num),
   (clampNegativePartitions_nonneg "k" 3 "k" (3 : ℚ)).2.2.2.2.1 (by norm_num)⟩

/-- C7: the drop step emits exactly the records whose optional result is
present, each with its unwrapped scalar value, and emits nothing for an
absent (`nil`) result; over a whole stream a record is in the output iff the
corresponding present record is in the input. -/
theorem dropThresholdedPartitions_emits_iff_present {α β : Type} (v : α)
    (r : Option Int) (l : List (α × Option Int)) (vf : β) (rf : Option ℚ) :
    (∀ x, r = some x → dropThresholdedPartitionsInt64Fn v r = [(v, x)]) ∧
    (r = none → dropThresholdedPartitionsInt64Fn v r = []) ∧
    (∀ p : α × Int,
      p ∈ l.flatMap (fun q => dropThresholdedPartitionsInt64Fn q.1 q.2) ↔
        (p.1, some p.2) ∈ l) ∧
    (∀ x, rf = some x → dropThresholdedPartitionsFloat64Fn vf rf = [(vf, x)]) ∧
    (rf = none → dropThresholdedPartitionsFloat64Fn vf rf = []) := by
  refine ⟨?_, ?_, ?_, ?_, ?_⟩
  · intro x h
    simp [dropThresholdedPartitionsInt64Fn, h]
  · intro h
    simp [dropThresholdedPartitionsInt64Fn, h]
  · intro p
    simp [List.mem_flatMap, mem_dropThresholdedInt64]
  · intro x h
    simp [dropThresholdedPartitionsFloat64Fn, h]
  · intro h
    simp [dropThresholdedPartitionsFloat64Fn, h]

/-- C7 witness: a present record is emitted unwrapped, an absent one is
dropped, and over a two-record stream the present record is the whole
output. -/
theorem dropThresholdedPartitions_emits_iff_present_witness :
    dropThresholdedPartitionsInt64Fn "a" (some 4) = [("a", 4)] ∧
    dropThresholdedPartitionsInt64Fn "b" (none : Option Int) = [] ∧
    (("a", (4 : Int)) ∈ [("a", some (4 : Int)), ("b", none)].flatMap
      (fun q => dropThresholdedPartitionsInt64Fn q.1 q.2) ↔
      ("a", some (4 : Int)) ∈ [("a", some (4 : Int)), ("b", none)]) ∧
    dropThresholdedPartitionsFloat64Fn "c" (some (7 : ℚ)) = [("c", 7)] ∧
    dropThresholdedPartitionsFloat64Fn "d" (none : Option ℚ) = [] :=
  ⟨(dropThresholdedPartitions_emits_iff_present "a" (some 4)
      [("a", some 4), ("b", none)] "c" (some (7 : ℚ))).1 4 rfl,
   (dropThresholdedPartitions_emits_iff_present "b" (none : Option Int)
      [("a", some 4), ("b", none)] "c" (some (7 : ℚ))).2.1 rfl,
   (dropThresholdedPartitions_emits_iff_present "a" (some 4)
      [("a", some 4), ("b", none)] "c" (some (7 : ℚ))).2.2.1 ("a", 4),
   (dropThresholdedPartitions_emits_iff_present "a" (some 4)
      [("a", some 4), ("b", none)] "c" (some (7 : ℚ))).2.2.2.1 7 rfl,
   (dropThresholdedPartitions_emits_iff_present "a" (some 4)
      [("a", some 4), ("b", none)] "c" (none : Option ℚ)).2.2.2.2 rfl⟩

/-- C4: both partition-spec filters return their input collection unchanged
when the number of caller-supplied partition-key sources is zero or greater
than one, and apply the pruning filter exactly when one source is given. -/
theorem dropUnspecifiedPartitions_noop_unless_single {α κ : Type}
    (enc : κ → String) (partitions : List (List κ)) (col : List (α × Pair))
    (colC : List (α × κ)) (p0 : List κ) :
    (partitions.length ≠ 1 →
      dropUnspecifiedPartitions enc partitions col = col ∧
      dropUnspecifiedPartitionsForCount enc partitions colC = colC) ∧
    dropUnspecifiedPartitions enc [p0] col
      = col.flatMap
          (fun r => prunePartitionsFn (buildPartitionsMap enc p0) r.1 r.2) ∧
    dropUnspecifiedPartitionsForCount enc [p0] colC
      = colC.flatMap
          (fun r =>
            prunePartitionsFnForCount enc (buildPartitionsMap enc p0)
              r.1 r.2) := by
  refine ⟨?_, rfl, rfl⟩
  intro h
  rcases partitions with _ | ⟨q, _ | ⟨q2, qs⟩⟩
  · exact ⟨rfl, rfl⟩
  · exact absurd rfl h
  · exact ⟨rfl, rfl⟩

/-- C4 witness: with zero sources both filters pass a concrete collection
through unchanged; with exactly one source they equal the pruning filter. -/
theorem dropUnspecifiedPartitions_noop_unless_single_witness :
    (dropUnspecifiedPartitions (fun s => s) ([] : List (List String))
        [((1 : Nat), Pair.mk "p" "v")] = [((1 : Nat), Pair.mk "p" "v")] ∧
      dropUnspecifiedPartitionsForCount (fun s => s) ([] : List (List String))
        [((1 : Nat), "p")] = [((1 : Nat), "p")]) ∧
    dropUnspecifiedPartitions (fun s => s) [["p"]]
        [((1 : Nat), Pair.mk "p" "v")]
      = [((1 : Nat), Pair.mk "p" "v")].flatMap
          (fun r =>
            prunePartitionsFn (buildPartitionsMap (fun s => s) ["p"])
              r.1 r.2) ∧
    dropUnspecifiedPartitionsForCount (fun s => s) [["p"]] [((1 : Nat), "p")]
      = [((1 : Nat), "p")].flatMap
          (fun r =>
            prunePartitionsFnForCount (fun s => s)
              (buildPartitionsMap (fun s => s) ["p"]) r.1 r.2) :=
  ⟨(dropUnspecifiedPartitions_noop_unless_single (fun s => s)
      ([] : List (List String)) [((1 : Nat), Pair.mk "p" "v")]
      [((1 : Nat), "p")] ["p"]).1 (by decide),
   (dropUnspecifiedPartitions_noop_unless_single (fun s => s)
      ([] : List (List String)) [((1 : Nat), Pair.mk "p" "v")]
      [((1 : Nat), "p")] ["p"]).2.1,
   (dropUnspecifiedPartitions_noop_unless_single (fun s => s)
      ([] : List (List String)) [((1 : Nat), Pair.mk "p" "v")]
      [((1 : Nat), "p")] ["p"]).2.2⟩

/-- C5: the pre-aggregation filter emits `(unitID, pair)` iff the
already-encoded key `pair.K` is in the broadcast set, the post-aggregation
filter encodes the partition key first and emits `(unitID, partitionKey)` iff
the encoded form is in the set; each emits a given record at most once and
emits nothing outside the set. -/
theorem prunePartitions_emits_iff_member {α κ : Type} (enc : κ → String)
    (m : List Partition) (pid : α) (pair : Pair) (pidC : α) (pk : κ) :
    (∀ r, r ∈ prunePartitionsFn m pid pair ↔
       r = (pid, pair) ∧ mapLookup m (Partition.mk pair.K) = true) ∧
    (prunePartitionsFn m pid pair).length ≤ 1 ∧
    (∀ r, r ∈ prunePartitionsFnForCount enc m pidC pk ↔
       r = (pidC, pk) ∧ mapLookup m (Partition.mk (enc pk)) = true) ∧
    (prunePartitionsFnForCount enc m pidC pk).length ≤ 1 := by
  refine ⟨?_, ?_, ?_, ?_⟩
  · intro r
    unfold prunePartitionsFn
    split <;> simp_all
  · unfold prunePartitionsFn
    split <;> simp
  · intro r
    unfold prunePartitionsFnForCount
    split <;> simp_all
  · unfold prunePartitionsFnForCount
    split <;> simp

/-- C5 witness: with the broadcast set `{"p"}`, a record with encoded key
`"p"` is emitted (exactly once) and a record with key `"q"` is not. -/
theorem prunePartitions_emits_iff_member_witness :
    (((1 : Nat), Pair.mk "p" "v") ∈
        prunePartitionsFn [Partition.mk "p"] (1 : Nat) (Pair.mk "p" "v") ↔
      ((1 : Nat), Pair.mk "p" "v") = (1, Pair.mk "p" "v") ∧
        mapLookup [Partition.mk "p"] (Partition.mk "p") = true) ∧
    (prunePartitionsFn [Partition.mk "p"] (1 : Nat) (Pair.mk "q" "v")).length
      ≤ 1 ∧
    (((1 : Nat), "q") ∈
        prunePartitionsFnForCount (fun s => s) [Partition.mk "p"] (1 : Nat)
          "q" ↔
      ((1 : Nat), "q") = (1, "q") ∧
        mapLookup [Partition.mk "p"] (Partition.mk "q") = true) ∧
    (prunePartitionsFnForCount (fun s => s) [Partition.mk "p"] (1 : Nat)
        "q").length ≤ 1 :=
  ⟨(prunePartitions_emits_iff_member (fun s => s) [Partition.mk "p"] 1
      (Pair.mk "p" "v") 1 "q").1 (1, Pair.mk "p" "v"),
   (prunePartitions_emits_iff_member (fun s => s) [Partition.mk "p"] 1
      (Pair.mk "q" "v") 1 "q").2.1,
   (prunePartitions_emits_iff_member (fun s => s) [Partition.mk "p"] 1
      (Pair.mk "p" "v") 1 "q").2.2.1 (1, "q"),
   (prunePartitions_emits_iff_member (fun s => s) [Partition.mk "p"] 1
      (Pair.mk "p" "v") 1 "q").2.2.2⟩

/-- C8: for every keyed collection and limit, `boundContributions` keeps, for
each distinct key, at most `contributionLimit` of that key's records (every
kept record being one of that key's records, counted with multiplicity:
`Subperm`), and when a key has fewer than the limit all of them are kept
(the per-key output is a permutation of the per-key input); the function is
total, so there are no error conditions. -/
theorem boundContributions_per_key_bound {κ ν : Type} [DecidableEq κ]
    (less : ν → ν → Bool) (contributionLimit : Nat) (kvCol : List (κ × ν))
    (k : κ) :
    (valuesForKey (boundContributions less contributionLimit kvCol) k).length
        ≤ contributionLimit ∧
    (valuesForKey (boundContributions less contributionLimit kvCol) k).Subperm
        (valuesForKey kvCol k) ∧
    ((valuesForKey kvCol k).length ≤ contributionLimit →
      (valuesForKey (boundContributions less contributionLimit kvCol) k).Perm
        (valuesForKey kvCol k)) := by
  rw [valuesForKey_boundContributions]
  exact ⟨by rw [largest_length]; exact Nat.min_le_left _ _,
    largest_subperm less contributionLimit _,
    fun h => largest_perm_of_le less h⟩

/-- C8 witness: key `0` has three records and limit `2`, so at most two of
its values survive and they come from its own records; key `1` has a single
record, fewer than the limit, so its values are kept in full. -/
theorem boundContributions_per_key_bound_witness :
    (valuesForKey
        (boundContributions (fun a b : Nat => decide (a < b)) 2
          [((0 : Nat), (5 : Nat)), (0, 7), (0, 9), (1, 3)]) 0).length ≤ 2 ∧
    (valuesForKey
        (boundContributions (fun a b : Nat => decide (a < b)) 2
          [((0 : Nat), (5 : Nat)), (0, 7), (0, 9), (1, 3)]) 0).Subperm
      (valuesForKey [((0 : Nat), (5 : Nat)), (0, 7), (0, 9), (1, 3)] 0) ∧
    (valuesForKey
        (boundContributions (fun a b : Nat => decide (a < b)) 2
          [((0 : Nat), (5 : Nat)), (0, 7), (0, 9), (1, 3)]) 1).Perm
      (valuesForKey [((0 : Nat), (5 : Nat)), (0, 7), (0, 9), (1, 3)] 1) :=
  ⟨(boundContributions_per_key_bound (fun a b : Nat => decide (a < b)) 2
      [((0 : Nat), (5 : Nat)), (0, 7), (0, 9), (1, 3)] 0).1,
   (boundContributions_per_key_bound (fun a b : Nat => decide (a < b)) 2
      [((0 : Nat), (5 : Nat)), (0, 7), (0, 9), (1, 3)] 0).2.1,
   (boundContributions_per_key_bound (fun a b : Nat => decide (a < b)) 2
      [((0 : Nat), (5 : Nat)), (0, 7), (0, 9), (1, 3)] 1).2.2 (by decide)⟩

/-- C9: `randBool` ignores both of its data arguments: its output is a
function of the PRNG draw alone, so for any two pairs of input values (in
particular any change to another privacy unit's data) the result under the
same draw is identical. -/
theorem randBool_independent_of_data {α : Type} (u : Nat) (x y x' y' : α) :
    randBool u x y = randBool u x' y' ∧ randBool u x y = (u % 2 == 0) :=
  ⟨rfl, rfl⟩

/-- C10: the unwrap step dereferences its optional result with no nil check:
it succeeds exactly on present (non-nil) inputs, and on a nil input it
crashes (the panic is modelled by `none`); it is therefore safe only under
the precondition that every input is non-nil, i.e. after the drop step. -/
theorem correctTo_safe_iff_nonnil {α β : Type} (key : α) (v : Option Int)
    (keyf : β) (vf : Option ℚ) :
    (∀ x, CorrectToInt64 key (some x) = some (key, x)) ∧
    CorrectToInt64 key (none : Option Int) = none ∧
    ((CorrectToInt64 key v).isSome ↔ v.isSome) ∧
    (∀ x, CorrectToFloat64 keyf (some x) = some (keyf, x)) ∧
    CorrectToFloat64 keyf (none : Option ℚ) = none ∧
    ((CorrectToFloat64 keyf vf).isSome ↔ vf.isSome) := by
  refine ⟨fun x => rfl, rfl, ?_, fun x => rfl, rfl, ?_⟩
  · cases v <;> simp [CorrectToInt64]
  · cases vf <;> simp [CorrectToFloat64]

/-- C10 witness: the unwrap step at a present value and at the nil
sentinel, for both numeric flavors. -/
theorem correctTo_safe_iff_nonnil_witness :
    CorrectToInt64 "k" (some 3) = some ("k", 3) ∧
    CorrectToInt64 "k" (none : Option Int) = none ∧
    ((CorrectToInt64 "k" (none : Option Int)).isSome ↔
      (none : Option Int).isSome) ∧
    CorrectToFloat64 "k" (some (2 : ℚ)) = some ("k", 2) ∧
    CorrectToFloat64 "k" (none : Option ℚ) = none :=
  ⟨(correctTo_safe_iff_nonnil "k" (none : Option Int) "k"
      (none : Option ℚ)).1 3,
   (correctTo_safe_iff_nonnil "k" (none : Option Int) "k"
      (none : Option ℚ)).2.1,
   (correctTo_safe_iff_nonnil "k" (none : Option Int) "k"
      (none : Option ℚ)).2.2.1,
   (correctTo_safe_iff_nonnil "k" (none : Option Int) "k"
      (none : Option ℚ)).2.2.2.1 2,
   (correctTo_safe_iff_nonnil "k" (none : Option Int) "k"
      (none : Option ℚ)).2.2.2.2.1⟩

end Pbeam
